import Mathlib

/-!
Shallow embedding of the TuiView vector rasterizer
(`src/src/vectorrasterizer.c`) and verification of the frozen claims.

Modelling conventions:
* C `double` coordinate values are modelled as `ℚ`.  The raw 8-byte IEEE-754
  decoding performed by `READ_WKB_VAL` on doubles is not modelled bit-by-bit
  (floating point); instead every WKB-processing definition is parameterised
  by a decoder `fd : List Nat → ℚ` applied to the 8 consumed bytes, and the
  theorems hold for every such decoder.
* The WKB buffer is a `List Nat` of bytes; the C read cursor (a pointer that
  is advanced and returned) is modelled by returning the remaining suffix of
  the byte list.
* The numpy uint8 canvas is a row-major `List Nat`; `stderr` output is
  modelled as a list of messages carried in the writer state.
* C loops with data-dependent trip counts are modelled with explicit fuel
  chosen to dominate the concrete trip count.
-/

namespace VectorRasterizer

/-- Truncation toward zero, the semantics of a C `double`-to-`int` cast. -/
def truncC (q : ℚ) : ℤ := if 0 ≤ q then ⌊q⌋ else ⌈q⌉

/-- C `round`: round half away from zero. -/
def roundC (q : ℚ) : ℤ := if 0 ≤ q then ⌊q + 1/2⌋ else ⌈q - 1/2⌉

/-- Ceiling of a rational clamped to a natural number (loop-fuel helper). -/
def natCeil (q : ℚ) : ℕ := (⌈q⌉).toNat

/-- Read a 32-bit little-endian unsigned value from (the first four bytes of)
a byte list, as `READ_WKB_VAL(nType, p)` does for a `GUInt32`. -/
def fromLE4 (bs : List Nat) : Nat :=
  (bs.getD 0 0) % 256 + 256 * ((bs.getD 1 0) % 256)
    + 65536 * ((bs.getD 2 0) % 256) + 16777216 * ((bs.getD 3 0) % 256)

/-- Encode a 32-bit unsigned value as four little-endian bytes. -/
def u32bytes (n : Nat) : List Nat :=
  [n % 256, n / 256 % 256, n / 65536 % 256, n / 16777216 % 256]

/-- Consume a `GUInt32` from the byte stream: value and remaining bytes. -/
def readU32 (bs : List Nat) : Nat × List Nat := (fromLE4 bs, bs.drop 4)

/-- Consume a `double` from the byte stream using the abstract decoder. -/
def readF64 (fd : List Nat → ℚ) (bs : List Nat) : ℚ × List Nat :=
  (fd (bs.take 8), bs.drop 8)

/-! ### Writer configuration and state -/

/-- The per-call parameters of `VectorWriterData` (canvas excluded). -/
structure Cfg where
  lineWidth : ℤ
  bFill : Bool
  halfCross : ℤ
  /-- extents `(tlx, tly, brx, bry)` = `(minX, maxY, maxX, minY)` -/
  e0 : ℚ
  e1 : ℚ
  e2 : ℚ
  e3 : ℚ
  xsize : ℤ
  ysize : ℤ
  res : ℚ
  deriving Repr

/-- Embeds `VectorWriter_create`: clamps a negative line width to 0 and derives the
resolution from the extent and the canvas width. -/
def mkCfg (lineWidth : ℤ) (bFill : Bool) (halfCross : ℤ)
    (e0 e1 e2 e3 : ℚ) (xsize ysize : ℤ) : Cfg :=
  { lineWidth := if lineWidth < 0 then 0 else lineWidth
    bFill := bFill
    halfCross := halfCross
    e0 := e0, e1 := e1, e2 := e2, e3 := e3
    xsize := xsize, ysize := ysize
    res := (e2 - e0) / (xsize : ℚ) }

/-- Row-major single-byte canvas. -/
abbrev Canvas := List Nat

/-- Read a canvas cell (0 outside the stored data). -/
def canvasGet (xsize : ℤ) (c : Canvas) (x y : ℤ) : Nat :=
  c.getD (y * xsize + x).toNat 0

/-- Write 1 to a canvas cell, after the in-bounds test every burning
operation performs. -/
def canvasSet (cfg : Cfg) (c : Canvas) (x y : ℤ) : Canvas :=
  if 0 ≤ x ∧ x < cfg.xsize ∧ 0 ≤ y ∧ y < cfg.ysize then
    c.set (y * cfg.xsize + x).toNat 1
  else c

/-- Mutable state threaded through the writer: the canvas, the linked list of
polygon-corner slabs (one per ring), the min/max Y over the accumulated
corners, `stderr` output, and a trace of the `VectorWriter_burnLine` calls
(each entry records the two geographic endpoints of one burnt segment). -/
structure St where
  canvas : Canvas
  slabs : List (List (ℚ × ℚ))
  dMinY : ℚ
  dMaxY : ℚ
  msgs : List String
  segs : List ((ℚ × ℚ) × (ℚ × ℚ))
  deriving Repr

/-! ### `VectorWriter_plot`: single pixel with width expansion -/

/-- Inner loop of the width-expansion box: burn `n` cells of column `x`
starting at row `y`. -/
def plotCol (cfg : Cfg) (x : ℤ) : Nat → ℤ → Canvas → Canvas
  | 0, _, c => c
  | n + 1, y, c => plotCol cfg x n (y + 1) (canvasSet cfg c x y)

/-- Outer loop of the width-expansion box: for `n` columns starting at `tlx`,
burn rows `tly .. tly+h-1`. -/
def plotBox (cfg : Cfg) (tly : ℤ) (h : Nat) : Nat → ℤ → Canvas → Canvas
  | 0, _, c => c
  | n + 1, x, c => plotBox cfg tly h n (x + 1) (plotCol cfg x h tly c)

/-- Embeds `VectorWriter_plot`: line width 1 burns the single cell; width > 1 burns
an axis-aligned box `ceil((w-1)/2)` to the north/west and `floor((w-1)/2)` to
the south/east; width ≤ 0 burns nothing. -/
def plot (cfg : Cfg) (c : Canvas) (x y : ℤ) : Canvas :=
  if cfg.lineWidth = 1 then
    canvasSet cfg c x y
  else if 1 < cfg.lineWidth then
    let dSize : ℚ := ((cfg.lineWidth - 1 : ℤ) : ℚ) / 2
    let nNW : ℤ := ⌈dSize⌉
    let nSE : ℤ := ⌊dSize⌋
    let tlx := x - nNW
    let tly := y - nNW
    let brx := x + nSE
    let bry := y + nSE
    plotBox cfg tly (bry - tly + 1).toNat (brx - tlx + 1).toNat tlx c
  else c

/-! ### `VectorWriter_bresenham` -/

/-- Loop body shared by both branches of the Bresenham stepper, stated on the
dominant axis `a` (stepped every iteration by `ia`) and the minor axis `b`
(stepped by `ib` when the error test fires); returns the plotted
`(dominant, minor)` pairs in order. -/
def bresLoop (dA dB : ℤ) (ia ib : ℤ) : Nat → ℤ → ℤ → ℤ → List (ℤ × ℤ)
  | 0, _, _, _ => []
  | n + 1, a, b, error =>
    let step := 0 ≤ error ∧ (error ≠ 0 ∨ 0 < ia)
    let b' := if step then b + ib else b
    let error' := (if step then error - dA else error) + dB
    let a' := a + ia
    (a', b') :: bresLoop dA dB ia ib n a' b' error'

/-- Embeds `VectorWriter_bresenham` as the ordered list of plotted pixels.  The C
`while (x1 != x2)` loop is modelled with fuel `|x2 - x1|`: the dominant
coordinate moves one signed unit step per iteration, so the fuel is exactly
the trip count. -/
def bresenhamPts (x1 y1 x2 y2 : ℤ) : List (ℤ × ℤ) :=
  let ix : ℤ := if 0 < x2 - x1 then 1 else if x2 - x1 < 0 then -1 else 0
  let dx : ℤ := 2 * |x2 - x1|
  let iy : ℤ := if 0 < y2 - y1 then 1 else if y2 - y1 < 0 then -1 else 0
  let dy : ℤ := 2 * |y2 - y1|
  (x1, y1) ::
    (if dy ≤ dx then
      bresLoop dx dy ix iy (x2 - x1).natAbs x1 y1 (dy - dx / 2)
    else
      (bresLoop dy dx iy ix (y2 - y1).natAbs y1 x1 (dx - dy / 2)).map
        (fun p => (p.2, p.1)))

/-- Burn the Bresenham pixel sequence between two pixel coordinates. -/
def burnPixelLine (cfg : Cfg) (c : Canvas) (x1 y1 x2 y2 : ℤ) : Canvas :=
  (bresenhamPts x1 y1 x2 y2).foldl (fun cv p => plot cfg cv p.1 p.2) c

/-! ### `VectorWriter_burnPoint` and `VectorWriter_burnLine` -/

/-- Map a geographic coordinate pair to a pixel column and row: the
`(dx - pExtents[0]) / dMetersPerPix` double expression assigned to an `int`,
i.e. truncation toward zero. -/
def mapPixel (cfg : Cfg) (dx dy : ℚ) : ℤ × ℤ :=
  (truncC ((dx - cfg.e0) / cfg.res), truncC ((cfg.e1 - dy) / cfg.res))

/-- Horizontal arm of the point cross: plot `(x, ny)` for `n` consecutive
columns starting at `x0`. -/
def crossRow (cfg : Cfg) (ny : ℤ) : Nat → ℤ → Canvas → Canvas
  | 0, _, c => c
  | n + 1, x, c => crossRow cfg ny n (x + 1) (plot cfg c x ny)

/-- Vertical arm of the point cross: plot `(nx, y)` for `n` consecutive rows
starting at `y0`. -/
def crossCol (cfg : Cfg) (nx : ℤ) : Nat → ℤ → Canvas → Canvas
  | 0, _, c => c
  | n + 1, y, c => crossCol cfg nx n (y + 1) (plot cfg c nx y)

/-- Embeds `VectorWriter_burnPoint`: half-cross size 1 plots the single mapped
pixel; size > 1 plots a horizontal run `x ∈ [nx-H, nx+H)` and a vertical run
`y ∈ [ny-H, ny+H)`; any other size plots nothing. -/
def burnPoint (cfg : Cfg) (c : Canvas) (dx dy : ℚ) : Canvas :=
  let nx := (mapPixel cfg dx dy).1
  let ny := (mapPixel cfg dx dy).2
  if cfg.halfCross = 1 then
    plot cfg c nx ny
  else if 1 < cfg.halfCross then
    let h := crossRow cfg ny (2 * cfg.halfCross).toNat (nx - cfg.halfCross) c
    crossCol cfg nx (2 * cfg.halfCross).toNat (ny - cfg.halfCross) h
  else c

/-- Embeds `VectorWriter_burnLine`: map both geographic endpoints (truncating, not
rounding) and run the Bresenham stepper; the state also records the segment
in the burn trace. -/
def burnLine (cfg : Cfg) (st : St) (dx1 dy1 dx2 dy2 : ℚ) : St :=
  let p1 := mapPixel cfg dx1 dy1
  let p2 := mapPixel cfg dx2 dy2
  { st with
    canvas := burnPixelLine cfg st.canvas p1.1 p1.2 p2.1 p2.2
    segs := st.segs ++ [((dx1, dy1), (dx2, dy2))] }

/-! ### `fillPoly`: even-odd scanline fill -/

/-- Node test and interpolation for one edge `(v_i, v_j)` of a ring, where
`v_j` is the vertex preceding `v_i` (wrapping around). -/
def edgeNode (py : ℚ) (vi vj : ℚ × ℚ) : Option ℚ :=
  if (vi.2 < py ∧ py ≤ vj.2) ∨ (vj.2 < py ∧ py ≤ vi.2) then
    some (vi.1 + (py - vi.2) / (vj.2 - vi.2) * (vj.1 - vi.1))
  else none

/-- Node list contributed by one ring at scan height `py`: the C loop pairs
index `i` with `j = i - 1`, with `j` starting at the last corner. -/
def ringNodes (py : ℚ) (ring : List (ℚ × ℚ)) : List ℚ :=
  match ring with
  | [] => []
  | v :: vs =>
    ((v :: vs).zip ((v :: vs).getLastD v :: (v :: vs).dropLast)).filterMap
      (fun p => edgeNode py p.1 p.2)

/-- Node list over all slabs at scan height `py`. -/
def buildNodes (py : ℚ) (slabs : List (List (ℚ × ℚ))) : List ℚ :=
  slabs.foldl (fun acc ring => acc ++ ringNodes py ring) []

/-- The C "simple Bubble sort" (a gnome sort): compare positions `i` and
`i+1`, swapping and stepping back on disorder.  Fuel bounds the number of
steps; `(n+1)^2` dominates the `n + inversions ≤ n + n(n-1)/2` steps the
algorithm needs. -/
def gnomeStep (l : List ℚ) : Nat → Nat → List ℚ
  | 0, _ => l
  | fuel + 1, i =>
    if i + 1 < l.length then
      let a := l.getD i 0
      let b := l.getD (i + 1) 0
      if b < a then
        gnomeStep ((l.set i b).set (i + 1) a) fuel (i - 1)
      else
        gnomeStep l fuel (i + 1)
    else l

/-- Sort the node list as `fillPoly` does. -/
def gnomeSort (l : List ℚ) : List ℚ :=
  gnomeStep l ((l.length + 1) * (l.length + 1)) 0

/-- The stepped X positions of the inner fill loop:
`for (pixelX = a; pixelX < b; pixelX += res)`. -/
def stepXs (res : ℚ) : Nat → ℚ → ℚ → List ℚ
  | 0, _, _ => []
  | n + 1, x, b => if x < b then x :: stepXs res n (x + res) b else []

/-- All stepped X positions of one intercept pair, with fuel sufficient for
any positive resolution. -/
def pairXs (res : ℚ) (a b : ℚ) : List ℚ :=
  stepXs res (natCeil ((b - a) / res) + 1) a b

/-- The in-range pixel columns burnt for one (already clipped) intercept
pair: each stepped X is mapped with C `round`, then range-checked. -/
def pairCols (cfg : Cfg) (a b : ℚ) : List ℤ :=
  (pairXs cfg.res a b).filterMap (fun x =>
    let nx := roundC ((x - cfg.e0) / cfg.res)
    if 0 ≤ nx ∧ nx < cfg.xsize then some nx else none)

/-- The pixel columns burnt by the node-pair loop of `fillPoly` for one row:
pairs are taken in order; a pair whose first node is at or beyond the
extent's right edge `break`s out of the loop; a pair is clipped to
`[e0, e2]` and skipped unless its second node exceeds the left edge. -/
def fillPairsCols (cfg : Cfg) : List ℚ → List ℤ
  | a :: b :: rest =>
    if cfg.e2 ≤ a then []
    else
      (if cfg.e0 < b then
        pairCols cfg (if a < cfg.e0 then cfg.e0 else a)
          (if cfg.e2 < b then cfg.e2 else b)
      else []) ++ fillPairsCols cfg rest
  | _ => []

/-- Burn one scan row: build, sort and pair the nodes, then set each column
of the row. -/
def fillRow (cfg : Cfg) (slabs : List (List (ℚ × ℚ))) (ny : ℤ) (c : Canvas) :
    Canvas :=
  (fillPairsCols cfg (gnomeSort (buildNodes
      (cfg.e1 - ((ny : ℚ) + 1/2) * cfg.res) slabs))).foldl
    (fun cv nx => canvasSet cfg cv nx ny) c

/-- Row loop of `fillPoly`: rows whose pixel-centre Y lies outside the
accumulated `[dMinY, dMaxY]` range are skipped. -/
def fillRows (cfg : Cfg) (slabs : List (List (ℚ × ℚ))) (dMinY dMaxY : ℚ) :
    Nat → ℤ → Canvas → Canvas
  | 0, _, c => c
  | n + 1, ny, c =>
    let py := cfg.e1 - ((ny : ℚ) + 1/2) * cfg.res
    let c' := if py < dMinY ∨ dMaxY < py then c else fillRow cfg slabs ny c
    fillRows cfg slabs dMinY dMaxY n (ny + 1) c'

/-- Embeds `fillPoly`: bails out when fewer than two corners were accumulated,
otherwise scans every canvas row. -/
def fillPoly (cfg : Cfg) (st : St) : St :=
  let total := (st.slabs.map List.length).sum
  if total < 2 then st
  else
    { st with
      canvas := fillRows cfg st.slabs st.dMinY st.dMaxY cfg.ysize.toNat 0
        st.canvas }

/-- Variant of `fillPoly` with the scratch-buffer allocation made explicit: when the
`malloc` for `nodeX` fails the C function prints to `stderr` and returns,
leaving the canvas untouched and reporting nothing to its caller.  (As in
the source, the allocation is only attempted once at least two corners were
accumulated.) -/
def fillPolyAlloc (allocOk : Bool) (cfg : Cfg) (st : St) : St :=
  let total := (st.slabs.map List.length).sum
  if total < 2 then st
  else if allocOk then fillPoly cfg st
  else { st with msgs := st.msgs ++ ["Allocation for fill failed"] }

/-! ### WKB decoding -/

/-- Skip the optional Z ordinate of a coordinate. -/
def skipZ (z : Bool) (bs : List Nat) : List Nat := if z then bs.drop 8 else bs

/-- Geometry type tags.  Modelled from the spec: the numeric values come from
the GDAL `ogr_core.h` header, which is not part of this repository; the spec
(§3, §4.1) describes a 4-byte type tag with a parallel has-Z variant of each
tag and a "no geometry" tag. -/
def wkbPoint : Nat := 1

def wkbLineString : Nat := 2

def wkbPolygon : Nat := 3

def wkbMultiPoint : Nat := 4

def wkbMultiLineString : Nat := 5

def wkbMultiPolygon : Nat := 6

def wkbGeometryCollection : Nat := 7

def wkbNone : Nat := 100

/-- The has-Z ("25D") variant of a base tag. -/
def wkbZ (t : Nat) : Nat := t + 2147483648

/-- The type tags the dispatch switch of `VectorWriter_processWKB`
recognises. -/
def recognizedTag (t : Nat) : Prop :=
  t ∈ [wkbPoint, wkbZ wkbPoint, wkbLineString, wkbZ wkbLineString,
    wkbPolygon, wkbZ wkbPolygon, wkbMultiPoint, wkbZ wkbMultiPoint,
    wkbMultiLineString, wkbZ wkbMultiLineString, wkbMultiPolygon,
    wkbZ wkbMultiPolygon, wkbGeometryCollection,
    wkbZ wkbGeometryCollection, wkbNone]

instance (t : Nat) : Decidable (recognizedTag t) := by
  unfold recognizedTag; infer_instance

/-- Embeds `VectorWriter_processPoint`: read one coordinate pair (skipping any Z
ordinate) and burn the point marker. -/
def processPoint (fd : List Nat → ℚ) (z : Bool) (cfg : Cfg) (st : St)
    (bs : List Nat) : St × List Nat :=
  let r1 := readF64 fd bs
  let r2 := readF64 fd r1.2
  ({ st with canvas := burnPoint cfg st.canvas r1.1 r2.1 }, skipZ z r2.2)

/-- Segment loop of `VectorWriter_processLineString`: read `k` further
coordinate pairs, burning the segment from the previous pair to each. -/
def lineLoop (fd : List Nat → ℚ) (z : Bool) (cfg : Cfg) :
    Nat → ℚ → ℚ → St → List Nat → St × List Nat
  | 0, _, _, st, bs => (st, bs)
  | k + 1, dx1, dy1, st, bs =>
    let r1 := readF64 fd bs
    let r2 := readF64 fd r1.2
    lineLoop fd z cfg k r1.1 r2.1 (burnLine cfg st dx1 dy1 r1.1 r2.1)
      (skipZ z r2.2)

/-- Embeds `VectorWriter_processLineString`: with a positive line width the
coordinates are read and stroked pairwise; otherwise the coordinate bytes
are skipped with a pure cursor advance. -/
def processLineString (fd : List Nat → ℚ) (z : Bool) (cfg : Cfg) (st : St)
    (bs : List Nat) : St × List Nat :=
  let r := readU32 bs
  let n := r.1
  if n = 0 then (st, r.2)
  else if 0 < cfg.lineWidth then
    let r1 := readF64 fd r.2
    let r2 := readF64 fd r1.2
    lineLoop fd z cfg (n - 1) r1.1 r2.1 st (skipZ z r2.2)
  else
    (st, r.2.drop (n * 16 + if z then n * 8 else 0))

/-- The Y-range bookkeeping performed for each further ring vertex when the
fill flag is set (`if dy2 < pData->dMinY ... if dy2 > pData->dMaxY ...`). -/
def fillTrack (cfg : Cfg) (dy2 : ℚ) (st : St) : St :=
  if cfg.bFill then
    { st with
      dMinY := if dy2 < st.dMinY then dy2 else st.dMinY
      dMaxY := if st.dMaxY < dy2 then dy2 else st.dMaxY }
  else st

/-- Vertex loop of `VectorWriter_processLinearRing`: read `k` further
coordinate pairs; each is stroked from its predecessor when the line width
is positive and appended to the accumulator (updating the Y range) when the
fill flag is set.  Returns the state, the cursor, the last vertex and the
vertices read by this loop in order. -/
def ringLoop (fd : List Nat → ℚ) (z : Bool) (cfg : Cfg) :
    Nat → ℚ → ℚ → St → List Nat → List (ℚ × ℚ) →
      St × List Nat × (ℚ × ℚ) × List (ℚ × ℚ)
  | 0, dx1, dy1, st, bs, acc => (st, bs, (dx1, dy1), acc)
  | k + 1, dx1, dy1, st, bs, acc =>
    let r1 := readF64 fd bs
    let r2 := readF64 fd r1.2
    let dx2 := r1.1
    let dy2 := r2.1
    let st1 := if 0 < cfg.lineWidth then burnLine cfg st dx1 dy1 dx2 dy2
      else st
    let st2 := fillTrack cfg dy2 st1
    ringLoop fd z cfg k dx2 dy2 st2 (skipZ z r2.2) (acc ++ [(dx2, dy2)])

/-- Embeds `VectorWriter_processLinearRing`: like `processLineString` but the
coordinates are always read, the ring is accumulated as one slab when the
fill flag is set (the Y range is initialised from the first vertex of the
first slab), and the ring is closed with an implicit edge from the last
vertex back to the first whenever the line width is positive. -/
def processLinearRing (fd : List Nat → ℚ) (z : Bool) (cfg : Cfg) (st : St)
    (bs : List Nat) : St × List Nat :=
  let r := readU32 bs
  let n := r.1
  if n = 0 then (st, r.2)
  else
    let r1 := readF64 fd r.2
    let r2 := readF64 fd r1.2
    let dx1 := r1.1
    let dy1 := r2.1
    let st1 := if cfg.bFill ∧ st.slabs = [] then
        { st with dMinY := dy1, dMaxY := dy1 }
      else st
    let l := ringLoop fd z cfg (n - 1) dx1 dy1 st1 (skipZ z r2.2) []
    let st2 := l.1
    let lastP := l.2.2.1
    let st3 := if 0 < cfg.lineWidth then
        burnLine cfg st2 lastP.1 lastP.2 dx1 dy1
      else st2
    let st4 := if cfg.bFill then
        { st3 with slabs := st3.slabs ++ [(dx1, dy1) :: l.2.2.2] }
      else st3
    (st4, l.2.1)

/-- Run a member-decoding function `n` times, threading state and cursor
(the shape of every count-prefixed loop in the source). -/
def iterGeoms (f : St → List Nat → St × List Nat) :
    Nat → St → List Nat → St × List Nat
  | 0, st, bs => (st, bs)
  | k + 1, st, bs =>
    let r := f st bs
    iterGeoms f k r.1 r.2

/-- Embeds `VectorWriter_processPolygon`: a count-prefixed sequence of rings. -/
def processPolygon (fd : List Nat → ℚ) (z : Bool) (cfg : Cfg) (st : St)
    (bs : List Nat) : St × List Nat :=
  let r := readU32 bs
  iterGeoms (processLinearRing fd z cfg) r.1 st r.2

/-- One member step of a multi-geometry: skip the member's 1-byte order
marker and 4-byte type tag without reading them, then run the member
decoder (with the has-Z flag inherited from the parent). -/
def multiStep (f : St → List Nat → St × List Nat) (st : St) (bs : List Nat) :
    St × List Nat :=
  f st (bs.drop 5)

/-- Embeds `VectorWriter_processMultiPoint`. -/
def processMultiPoint (fd : List Nat → ℚ) (z : Bool) (cfg : Cfg) (st : St)
    (bs : List Nat) : St × List Nat :=
  let r := readU32 bs
  iterGeoms (multiStep (processPoint fd z cfg)) r.1 st r.2

/-- Embeds `VectorWriter_processMultiLineString`. -/
def processMultiLineString (fd : List Nat → ℚ) (z : Bool) (cfg : Cfg)
    (st : St) (bs : List Nat) : St × List Nat :=
  let r := readU32 bs
  iterGeoms (multiStep (processLineString fd z cfg)) r.1 st r.2

/-- Embeds `VectorWriter_processMultiPolygon`. -/
def processMultiPolygon (fd : List Nat → ℚ) (z : Bool) (cfg : Cfg) (st : St)
    (bs : List Nat) : St × List Nat :=
  let r := readU32 bs
  iterGeoms (multiStep (processPolygon fd z cfg)) r.1 st r.2

/-- Embeds `VectorWriter_processWKB`: skip the byte-order marker, read the 4-byte
type tag and dispatch.  An unrecognised tag prints a message and leaves the
cursor just past the tag.  The fuel bounds the `GeometryCollection` nesting
depth; every recursive entry strictly decreases it. -/
def processWKBF (fd : List Nat → ℚ) (cfg : Cfg) :
    Nat → St → List Nat → St × List Nat
  | 0, st, bs => (st, bs)
  | fuel + 1, st, bs =>
    let r := readU32 (bs.drop 1)
    let t := r.1
    let bs2 := r.2
    if t = wkbPoint then processPoint fd false cfg st bs2
    else if t = wkbZ wkbPoint then processPoint fd true cfg st bs2
    else if t = wkbLineString then processLineString fd false cfg st bs2
    else if t = wkbZ wkbLineString then processLineString fd true cfg st bs2
    else if t = wkbPolygon then processPolygon fd false cfg st bs2
    else if t = wkbZ wkbPolygon then processPolygon fd true cfg st bs2
    else if t = wkbMultiPoint then processMultiPoint fd false cfg st bs2
    else if t = wkbZ wkbMultiPoint then processMultiPoint fd true cfg st bs2
    else if t = wkbMultiLineString then
      processMultiLineString fd false cfg st bs2
    else if t = wkbZ wkbMultiLineString then
      processMultiLineString fd true cfg st bs2
    else if t = wkbMultiPolygon then processMultiPolygon fd false cfg st bs2
    else if t = wkbZ wkbMultiPolygon then
      processMultiPolygon fd true cfg st bs2
    else if t = wkbGeometryCollection ∨ t = wkbZ wkbGeometryCollection then
      let r2 := readU32 bs2
      iterGeoms (processWKBF fd cfg fuel) r2.1 st r2.2
    else if t = wkbNone then (st, bs2)
    else ({ st with msgs := st.msgs ++ ["Unknown WKB code"] }, bs2)

/-- Embeds `VectorWriter_processAll`: decode the record, then, when filling and at
least one ring was accumulated, run the scanline fill and discard the
slabs. -/
def processAll (fd : List Nat → ℚ) (cfg : Cfg) (st : St) (bs : List Nat) :
    St :=
  let r := processWKBF fd cfg (bs.length + 1) st bs
  if cfg.bFill ∧ r.1.slabs ≠ [] then
    { fillPoly cfg r.1 with slabs := [] }
  else r.1

/-- Variant of `VectorWriter_processAll` with the fill scratch-buffer allocation made
explicit (see `fillPolyAlloc`). -/
def processAllAlloc (allocOk : Bool) (fd : List Nat → ℚ) (cfg : Cfg)
    (st : St) (bs : List Nat) : St :=
  let r := processWKBF fd cfg (bs.length + 1) st bs
  if cfg.bFill ∧ r.1.slabs ≠ [] then
    { fillPolyAlloc allocOk cfg r.1 with slabs := [] }
  else r.1

/-- The coordinate pairs read by `n` iterations of the point-reading pattern
(used to state theorems about decoded vertices). -/
def decodePts (fd : List Nat → ℚ) (z : Bool) :
    Nat → List Nat → List (ℚ × ℚ) × List Nat
  | 0, bs => ([], bs)
  | k + 1, bs =>
    let r1 := readF64 fd bs
    let r2 := readF64 fd r1.2
    let r := decodePts fd z k (skipZ z r2.2)
    ((r1.1, r2.1) :: r.1, r.2)

/-- The segments joining consecutive vertices of a path. -/
def pathSegs : List (ℚ × ℚ) → List ((ℚ × ℚ) × (ℚ × ℚ))
  | a :: b :: rest => (a, b) :: pathSegs (b :: rest)
  | _ => []

/-! ### Font metrics and `vectorrasterizer_textLength`

The glyph table lives in `tuifont.h`, which is not part of the sources;
its shape is modelled from the spec (§3 Glyph Table, §4.6): a fixed table
covering a supported character range, with the space character handled
outside the table by a fixed space-advance constant. -/

/-- One glyph table entry: left bearing, advance width, right bearing. -/
structure FontEntry where
  left : ℤ
  adv : ℕ
  right : ℤ
  deriving Repr, DecidableEq, Inhabited

/-- Modelled from the spec: the first supported character code.  The label
renderer handles the space character (32) before its supported-range test,
so the supported range starts above it; printable ASCII beyond space starts
at 33. -/
def FONT_MIN_ASCII : ℕ := 33

/-- Modelled from the spec: the last supported character code (printable
ASCII). -/
def FONT_MAX_ASCII : ℕ := 126

/-- Modelled from the spec: the fixed pen advance used for the space
character by the label renderer. -/
def FONT_SPACE_ADVANCE : ℕ := 4

/-- Modelled from the spec: a concrete glyph table with per-glyph advance
widths (the varying advance keeps the model honest: no accidental
coincidence with the space advance). -/
def fontInfo : List FontEntry :=
  (List.range (FONT_MAX_ASCII - FONT_MIN_ASCII + 1)).map
    (fun i => { left := 1, adv := 5 + i % 3, right := 1 })

/-- Reading `fontInfo[i]`.  An index outside the table is an out-of-bounds
read (undefined behaviour in the C source); it is modelled as a junk entry
with zero metrics. -/
def fontLookup (i : ℤ) : FontEntry :=
  if 0 ≤ i ∧ i < (fontInfo.length : ℤ) then fontInfo.getD i.toNat default
  else { left := 0, adv := 0, right := 0 }

/-- Embeds `vectorrasterizer_textLength`: fold over the characters of the string
(as a list of character codes), adding `fontInfo[ch - FONT_MIN_ASCII].adv`
for every character — with no special case for the space character and no
range check. -/
def textLength (s : List ℕ) : ℕ :=
  s.foldl (fun nx ch => nx + (fontLookup ((ch : ℤ) - FONT_MIN_ASCII)).adv) 0

/-- The advance computation the spec claims for `textLength`: each
character contributes its advance width, the space character contributing
the fixed space-advance constant (as the label renderer does). -/
def specTextLength (s : List ℕ) : ℕ :=
  s.foldl (fun nx ch =>
    nx + if ch = 32 then FONT_SPACE_ADVANCE
      else (fontLookup ((ch : ℤ) - FONT_MIN_ASCII)).adv) 0

/-! ### Reference definitions written from the spec's words -/

/-- The Bresenham loop as the spec's §4.3 words describe it, parameterised
by the direction consulted by the tie rule: step the minor axis when the
accumulated error has crossed zero — at exactly zero only if `tieDir` is
positive. -/
def bresSpecLoop (dA dB ia ib tieDir : ℤ) :
    Nat → ℤ → ℤ → ℤ → List (ℤ × ℤ)
  | 0, _, _, _ => []
  | n + 1, a, b, error =>
    let step := 0 < error ∨ (error = 0 ∧ 0 < tieDir)
    let b' := if step then b + ib else b
    let error' := (if step then error - dA else error) + dB
    let a' := a + ia
    (a', b') :: bresSpecLoop dA dB ia ib tieDir n a' b' error'

/-- The claim's stepper: tie-break on the minor axis's step direction. -/
def bresenhamSpecMinorTie (x1 y1 x2 y2 : ℤ) : List (ℤ × ℤ) :=
  let ix : ℤ := if 0 < x2 - x1 then 1 else if x2 - x1 < 0 then -1 else 0
  let dx : ℤ := 2 * |x2 - x1|
  let iy : ℤ := if 0 < y2 - y1 then 1 else if y2 - y1 < 0 then -1 else 0
  let dy : ℤ := 2 * |y2 - y1|
  (x1, y1) ::
    (if dy ≤ dx then
      bresSpecLoop dx dy ix iy iy (x2 - x1).natAbs x1 y1 (dy - dx / 2)
    else
      (bresSpecLoop dy dx iy ix ix (y2 - y1).natAbs y1 x1
        (dx - dy / 2)).map (fun p => (p.2, p.1)))

/-- The amended stepper: tie-break on the dominant axis's step direction. -/
def bresenhamSpecDominantTie (x1 y1 x2 y2 : ℤ) : List (ℤ × ℤ) :=
  let ix : ℤ := if 0 < x2 - x1 then 1 else if x2 - x1 < 0 then -1 else 0
  let dx : ℤ := 2 * |x2 - x1|
  let iy : ℤ := if 0 < y2 - y1 then 1 else if y2 - y1 < 0 then -1 else 0
  let dy : ℤ := 2 * |y2 - y1|
  (x1, y1) ::
    (if dy ≤ dx then
      bresSpecLoop dx dy ix iy ix (x2 - x1).natAbs x1 y1 (dy - dx / 2)
    else
      (bresSpecLoop dy dx iy ix iy (y2 - y1).natAbs y1 x1
        (dx - dy / 2)).map (fun p => (p.2, p.1)))

/-- The truncating column mapper of §4.2 applied to the stepped fill
positions of one clipped pair, as the claim's words require. -/
def pairColsTrunc (cfg : Cfg) (a b : ℚ) : List ℤ :=
  (pairXs cfg.res a b).filterMap (fun x =>
    let nx := truncC ((x - cfg.e0) / cfg.res)
    if 0 ≤ nx ∧ nx < cfg.xsize then some nx else none)

/-- The claim's pair-filling: each pair is skipped (not `break`ed on) once
its first intercept reaches the extent's right edge, and each stepped
position is mapped with the truncating §4.2 mapper. -/
def fillPairsColsSpec (cfg : Cfg) : List ℚ → List ℤ
  | a :: b :: rest =>
    (if cfg.e2 ≤ a then []
     else if cfg.e0 < b then
       pairColsTrunc cfg (if a < cfg.e0 then cfg.e0 else a)
         (if cfg.e2 < b then cfg.e2 else b)
     else []) ++ fillPairsColsSpec cfg rest
  | _ => []

/-- The amended pair-filling: as the claim, but mapping stepped positions
with C `round` (as the source does). -/
def fillPairsColsAmended (cfg : Cfg) : List ℚ → List ℤ
  | a :: b :: rest =>
    (if cfg.e2 ≤ a then []
     else if cfg.e0 < b then
       pairCols cfg (if a < cfg.e0 then cfg.e0 else a)
         (if cfg.e2 < b then cfg.e2 else b)
     else []) ++ fillPairsColsAmended cfg rest
  | _ => []

/-! ### Concrete fixtures for witnesses and counterexamples -/

/-- A concrete coordinate decoder for closed tests: the first byte of the
8-byte field, as a rational.  (The theorems about the decoder hold for every
decoder; witnesses pick this one.) -/
def fdTest : List Nat → ℚ := fun bs => ((bs.headD 0 : ℕ) : ℚ)

/-- Encode a small natural as an 8-byte coordinate field for `fdTest`. -/
def f64bytes (v : Nat) : List Nat := [v, 0, 0, 0, 0, 0, 0, 0]

/-- The spec's square-polygon example: corners
`(0,10),(10,10),(10,0),(0,0)` as one ring of one polygon record. -/
def sqWKB : List Nat :=
  [0] ++ u32bytes wkbPolygon ++ u32bytes 1 ++ u32bytes 4 ++
    f64bytes 0 ++ f64bytes 10 ++ f64bytes 10 ++ f64bytes 10 ++
    f64bytes 10 ++ f64bytes 0 ++ f64bytes 0 ++ f64bytes 0

/-- The spec example's configuration: extent `(0,10,10,0)`, canvas 10×10
(resolution 1), fill on, stroke width 0. -/
def cfgSquare : Cfg := mkCfg 0 true 1 0 10 10 0 10 10

/-- A fresh all-zero state for a 10×10 canvas. -/
def stSquare : St :=
  { canvas := List.replicate 100 0, slabs := [], dMinY := 0, dMaxY := 0
    msgs := [], segs := [] }

/-- A stroking configuration (line width 1) on the same extent/canvas. -/
def cfgStroke : Cfg := mkCfg 1 false 1 0 10 10 0 10 10

/-- Coordinate bytes of a concrete triangle `(1,1),(8,1),(4,6)` that does
not repeat its first vertex. -/
def triCoords : List Nat :=
  f64bytes 1 ++ f64bytes 1 ++ f64bytes 8 ++ f64bytes 1 ++
    f64bytes 4 ++ f64bytes 6

/-! ## Theorems for the claims -/

set_option maxRecDepth 8000 in
/-- C1, counterexample: on the claim's own example (square polygon
`(0,10),(10,10),(10,0),(0,0)`, extent `(0,10,10,0)`, canvas 10×10, fill on,
stroke width 0) the border pixel `(0,0)` — which the claimed erase pass
would re-stroke with burn value 0 — is burnt to 1 by the rasterizer. -/
theorem c1_counterexample :
    canvasGet 10 (processAll fdTest cfgSquare stSquare sqWKB).canvas 0 0
      = 1 := by with_unfolding_all decide

set_option maxRecDepth 8000 in
/-- C1, amended: no erase pass follows the scanline fill — the fill is the
final burning step of `processAll` — so the square example yields all 100
pixels burnt, with no outline-erased border. -/
theorem c1_amended :
    (processAll fdTest cfgSquare stSquare sqWKB).canvas
      = List.replicate 100 1 := by with_unfolding_all decide

/-- C2, counterexample: with cross half-length 0 (and stroke width 1) the
point marker burns nothing at all — the mapped centre pixel of the point
`(3/2, 3/2)` on a 3×3 canvas stays 0 — whereas the claim says H = 0 burns
exactly the single mapped pixel. -/
theorem c2_counterexample :
    burnPoint (mkCfg 1 false 0 0 3 3 0 3 3) (List.replicate 9 0)
        (3/2) (3/2) = List.replicate 9 0
      ∧ canvasGet 3 (burnPoint (mkCfg 1 false 0 0 3 3 0 3 3)
          (List.replicate 9 0) (3/2) (3/2)) 1 1 = 0 := by
  with_unfolding_all decide

/-- C3, counterexample: for the endpoints `(0,0) → (-4,2)` (dominant axis x
stepping negatively, minor axis y stepping positively, error exactly zero on
the first iteration) the code's stepper does not step the minor axis, while
a stepper obeying the claim's tie rule (step the minor axis iff the minor
direction is positive) does; the plotted sequences differ. -/
theorem c3_counterexample :
    bresenhamPts 0 0 (-4) 2 = [(0, 0), (-1, 0), (-2, 1), (-3, 1), (-4, 2)]
      ∧ bresenhamSpecMinorTie 0 0 (-4) 2
          = [(0, 0), (-1, 1), (-2, 1), (-3, 2), (-4, 2)]
      ∧ bresenhamPts 0 0 (-4) 2 ≠ bresenhamSpecMinorTie 0 0 (-4) 2 := by
  decide

/-- The code's step test `(error >= 0) && (error || (ia > 0))` is the
spec-style test "error has crossed zero; at exactly zero only if the
consulted direction is positive" — consulted on the dominant direction. -/
theorem bresLoop_eq_specLoop (dA dB ia ib : ℤ) :
    ∀ (n : Nat) (a b e : ℤ),
      bresLoop dA dB ia ib n a b e = bresSpecLoop dA dB ia ib ia n a b e := by
  intro n
  induction n with
  | zero => intro a b e; rfl
  | succ k ih =>
    intro a b e
    have hc : (0 ≤ e ∧ (e ≠ 0 ∨ 0 < ia)) = (0 < e ∨ (e = 0 ∧ 0 < ia)) := by
      apply propext; constructor <;> (intro h; omega)
    simp only [bresLoop, bresSpecLoop, hc, ih]

/-- The dominant coordinate after `n` loop iterations starting at `a`. -/
theorem bresLoop_getLastD_fst (dA dB ia ib : ℤ) :
    ∀ (n : Nat) (a b e : ℤ) (d : ℤ × ℤ),
      ((bresLoop dA dB ia ib n a b e).getLastD d).1 =
        if n = 0 then d.1 else a + n * ia := by
  intro n
  induction n with
  | zero => intro a b e d; simp [bresLoop]
  | succ k ih =>
    intro a b e d
    simp only [bresLoop, List.getLastD_cons, ih]
    rcases Nat.eq_zero_or_pos k with hk | hk
    · subst hk; simp
    · rw [if_neg (by omega), if_neg (by omega)]
      push_cast
      ring

/-- The signed unit step times the travelled distance recovers the delta. -/
theorem natAbs_mul_unitStep (d : ℤ) :
    (d.natAbs : ℤ) * (if 0 < d then 1 else if d < 0 then -1 else 0) = d := by
  rcases lt_trichotomy 0 d with h | h | h
  · rw [if_pos h]; omega
  · simp [← h]
  · rw [if_neg (by omega), if_pos (by omega)]; omega

/-- C3, amended: the stepper always plots the first endpoint first, the
dominant coordinate of the final plotted pixel equals its target, and the
tie rule at error exactly zero consults the dominant (not the minor) axis's
step direction: the stepper coincides with the spec-style stepper whose tie
rule is "step the minor axis iff the dominant direction is positive". -/
theorem c3_amended (x1 y1 x2 y2 : ℤ) :
    (bresenhamPts x1 y1 x2 y2).head? = some (x1, y1)
      ∧ (if (y2 - y1).natAbs ≤ (x2 - x1).natAbs then
          (((bresenhamPts x1 y1 x2 y2).getLastD (x1, y1)).1 = x2)
        else
          (((bresenhamPts x1 y1 x2 y2).getLastD (x1, y1)).2 = y2))
      ∧ bresenhamPts x1 y1 x2 y2 = bresenhamSpecDominantTie x1 y1 x2 y2 := by
  refine ⟨rfl, ?_, ?_⟩
  · by_cases hdom : (y2 - y1).natAbs ≤ (x2 - x1).natAbs
    · rw [if_pos hdom]
      have hbr : (2 * |y2 - y1| ≤ 2 * |x2 - x1|) := by
        rw [Int.abs_eq_natAbs, Int.abs_eq_natAbs]; omega
      simp only [bresenhamPts, if_pos hbr, List.getLastD_cons,
        bresLoop_getLastD_fst]
      rcases Nat.eq_zero_or_pos (x2 - x1).natAbs with h0 | h0
      · rw [if_pos h0]; omega
      · rw [if_neg (by omega)]
        have := natAbs_mul_unitStep (x2 - x1)
        omega
    · rw [if_neg hdom]
      have hbr : ¬ (2 * |y2 - y1| ≤ 2 * |x2 - x1|) := by
        rw [Int.abs_eq_natAbs, Int.abs_eq_natAbs]; omega
      simp only [bresenhamPts, if_neg hbr, List.getLastD_cons]
      rw [show ((x1, y1) : ℤ × ℤ) = (fun p : ℤ × ℤ => (p.2, p.1)) (y1, x1)
          from rfl,
        List.getLastD_map]
      show ((bresLoop _ _ _ _ _ _ _ _).getLastD (y1, x1)).1 = y2
      rw [bresLoop_getLastD_fst, if_neg (by omega)]
      have := natAbs_mul_unitStep (y2 - y1)
      omega
  · simp only [bresenhamPts, bresenhamSpecDominantTie, bresLoop_eq_specLoop]

/-- C4, counterexample: for sorted intercepts `[3/5, 2]` with extent
`(0,10,10,0)` and resolution 1 the fill loop burns columns `[1, 2]` (it
maps each stepped X with C `round`), not the columns `[0, 1]` produced by
the truncating §4.2 mapper the claim names. -/
theorem c4_counterexample :
    fillPairsCols cfgSquare [3/5, 2] = [1, 2]
      ∧ fillPairsColsSpec cfgSquare [3/5, 2] = [0, 1]
      ∧ fillPairsCols cfgSquare [3/5, 2]
          ≠ fillPairsColsSpec cfgSquare [3/5, 2] := by
  with_unfolding_all decide

/-- Once every remaining intercept is at or beyond the extent's right edge,
the per-pair-skipping loop emits nothing. -/
theorem fillPairsColsAmended_nil (cfg : Cfg) :
    ∀ nodes : List ℚ, (∀ x ∈ nodes, cfg.e2 ≤ x) →
      fillPairsColsAmended cfg nodes = []
  | [], _ => rfl
  | [_], _ => rfl
  | a :: b :: rest, h => by
    simp only [fillPairsColsAmended]
    rw [if_pos (h a (by simp)), List.nil_append]
    exact fillPairsColsAmended_nil cfg rest
      (fun x hx => h x (by simp [hx]))

/-- For sorted intercepts, the break-on-right-edge loop of the source and
the per-pair-skipping loop with the same `round` mapper agree. -/
theorem fillPairsCols_eq_amended (cfg : Cfg) :
    ∀ nodes : List ℚ, nodes.Sorted (· ≤ ·) →
      fillPairsCols cfg nodes = fillPairsColsAmended cfg nodes
  | [], _ => rfl
  | [_], _ => rfl
  | a :: b :: rest, h => by
    have h1 := (List.sorted_cons.mp h).1
    have h2 := (List.sorted_cons.mp h).2
    simp only [fillPairsCols, fillPairsColsAmended]
    by_cases hc : cfg.e2 ≤ a
    · rw [if_pos hc, if_pos hc, List.nil_append]
      exact (fillPairsColsAmended_nil cfg rest
        (fun x hx => le_trans hc (h1 x (by simp [hx])))).symm
    · rw [if_neg hc, if_neg hc]
      exact congrArg _ (fillPairsCols_eq_amended cfg rest
        (List.sorted_cons.mp h2).2)

/-- C4, amended: for sorted intercepts the fill loop burns, between each
consecutive pair (clipped to the extent), the stepped X positions mapped to
columns by `round((x - minX) / resolution)` — C `round`, not the truncating
§4.2 mapper — and a pair whose first intercept is at or beyond the extent's
right edge fills nothing (the loop `break`s there, which for sorted
intercepts equals skipping every such pair). -/
theorem c4_amended (cfg : Cfg) (nodes : List ℚ)
    (hs : nodes.Sorted (· ≤ ·)) :
    fillPairsCols cfg nodes = fillPairsColsAmended cfg nodes :=
  fillPairsCols_eq_amended cfg nodes hs

/-- C4, witness for the amended theorem at the sorted intercepts
`[3/5, 2]`. -/
theorem c4_amended_witness :
    fillPairsCols cfgSquare [3/5, 2] = fillPairsColsAmended cfgSquare [3/5, 2]
      ∧ List.Sorted (· ≤ ·) ([3/5, 2] : List ℚ) :=
  ⟨c4_amended cfgSquare [3/5, 2] (by with_unfolding_all decide),
    by with_unfolding_all decide⟩

/-- C5, code bug: `textLength` has no special case for the space character:
it indexes the glyph table at `' ' - FONT_MIN_ASCII`, which lies below the
supported range (an out-of-bounds read, modelled as a junk entry), instead
of adding the fixed space advance the label renderer uses; on `"A B"` it
returns 12 where the printed pen advance is 16. -/
theorem c5_bug :
    textLength [32] = 0 ∧ specTextLength [32] = FONT_SPACE_ADVANCE
      ∧ FONT_SPACE_ADVANCE ≠ 0
      ∧ textLength [65, 32, 66] = 12 ∧ specTextLength [65, 32, 66] = 16 := by
  decide

/-- C7: a record whose 4-byte type tag is not one of the recognised
geometry tags is non-fatal: the decoder reports the anomaly on `stderr`,
burns nothing (the state is unchanged apart from the message), and returns
the cursor positioned immediately after the 1-byte order marker and the
4-byte tag. -/
theorem c7_unknown_tag (fd : List Nat → ℚ) (cfg : Cfg) (st : St)
    (bs : List Nat) (fuel : Nat)
    (h : ¬ recognizedTag (fromLE4 (bs.drop 1))) :
    processWKBF fd cfg (fuel + 1) st bs
      = ({ st with msgs := st.msgs ++ ["Unknown WKB code"] }, bs.drop 5) := by
  simp only [recognizedTag, List.mem_cons, List.not_mem_nil, or_false,
    not_or] at h
  obtain ⟨h1, h2, h3, h4, h5, h6, h7, h8, h9, h10, h11, h12, h13, h14,
    h15⟩ := h
  simp only [processWKBF, readU32, if_neg h1, if_neg h2, if_neg h3,
    if_neg h4, if_neg h5, if_neg h6, if_neg h7, if_neg h8, if_neg h9,
    if_neg h10, if_neg h11, if_neg h12,
    if_neg (show ¬ (fromLE4 (bs.drop 1) = wkbGeometryCollection
      ∨ fromLE4 (bs.drop 1) = wkbZ wkbGeometryCollection) from by tauto),
    if_neg h15, List.drop_drop]

/-- C7, witness: tag 999 (unrecognised) on a concrete buffer: the state is
unchanged apart from the `stderr` message and the cursor lands right after
the 5 header bytes. -/
theorem c7_witness :
    processWKBF fdTest cfgSquare 1 stSquare
        ([0] ++ u32bytes 999 ++ [7, 7, 7])
      = ({ stSquare with msgs := stSquare.msgs ++ ["Unknown WKB code"] },
          ([0] ++ u32bytes 999 ++ [7, 7, 7]).drop 5) :=
  c7_unknown_tag fdTest cfgSquare stSquare _ 0 (by decide)

/-- The point decoder's cursor advance is a function of the has-Z flag
alone. -/
theorem processPoint_snd (fd : List Nat → ℚ) (z : Bool) (cfg : Cfg)
    (st : St) (bs : List Nat) :
    (processPoint fd z cfg st bs).2 = bs.drop (if z then 24 else 16) := by
  cases z <;> simp [processPoint, readF64, skipZ, List.drop_drop]

/-- The line-string stroking loop advances the cursor by one coordinate
record per iteration. -/
theorem lineLoop_snd (fd : List Nat → ℚ) (z : Bool) (cfg : Cfg) :
    ∀ (k : Nat) (d1 d2 : ℚ) (st : St) (bs : List Nat),
      (lineLoop fd z cfg k d1 d2 st bs).2
        = bs.drop (k * (if z then 24 else 16)) := by
  intro k
  induction k with
  | zero => intro d1 d2 st bs; simp [lineLoop]
  | succ m ih =>
    intro d1 d2 st bs
    cases z <;>
      · simp only [lineLoop, readF64, skipZ, ih, List.drop_drop,
          if_true, if_false, Bool.false_eq_true]
        congr 1
        omega

/-- The ring vertex loop advances the cursor by one coordinate record per
iteration. -/
theorem ringLoop_snd (fd : List Nat → ℚ) (z : Bool) (cfg : Cfg) :
    ∀ (k : Nat) (d1 d2 : ℚ) (st : St) (bs : List Nat) (acc : List (ℚ × ℚ)),
      (ringLoop fd z cfg k d1 d2 st bs acc).2.1
        = bs.drop (k * (if z then 24 else 16)) := by
  intro k
  induction k with
  | zero => intro d1 d2 st bs acc; simp [ringLoop]
  | succ m ih =>
    intro d1 d2 st bs acc
    cases z <;>
      · simp only [ringLoop, readF64, skipZ, ih, List.drop_drop,
          if_true, if_false, Bool.false_eq_true]
        congr 1
        omega

/-- The line-string decoder's cursor advance is a function of the input
bytes and the has-Z flag alone — identical for the stroking branch and for
the skipping branch. -/
theorem processLineString_snd (fd : List Nat → ℚ) (z : Bool) (cfg : Cfg)
    (st : St) (bs : List Nat) :
    (processLineString fd z cfg st bs).2
      = bs.drop (4 + fromLE4 bs * (if z then 24 else 16)) := by
  simp only [processLineString, readU32]
  by_cases h0 : fromLE4 bs = 0
  · rw [if_pos h0, h0]; simp
  · rw [if_neg h0]
    by_cases hw : 0 < cfg.lineWidth
    · rw [if_pos hw]
      cases z <;>
        · simp only [readF64, skipZ, lineLoop_snd, List.drop_drop,
            if_true, if_false, Bool.false_eq_true]
          congr 1
          omega
    · rw [if_neg hw]
      cases z <;>
        simp only [List.drop_drop, if_true, if_false, Bool.false_eq_true] <;>
        first
        | rfl
        | (congr 1; omega)

/-- The ring decoder's cursor advance is a function of the input bytes and
the has-Z flag alone. -/
theorem processLinearRing_snd (fd : List Nat → ℚ) (z : Bool) (cfg : Cfg)
    (st : St) (bs : List Nat) :
    (processLinearRing fd z cfg st bs).2
      = bs.drop (4 + fromLE4 bs * (if z then 24 else 16)) := by
  simp only [processLinearRing, readU32]
  by_cases h0 : fromLE4 bs = 0
  · rw [if_pos h0, h0]; simp
  · rw [if_neg h0]
    cases z <;>
      · simp only [readF64, skipZ, ringLoop_snd, List.drop_drop,
          if_true, if_false, Bool.false_eq_true]
        congr 1
        omega

/-- Two member loops whose member functions agree on cursors (for all
states) agree on cursors. -/
theorem iterGeoms_snd_congr (f g : St → List Nat → St × List Nat)
    (hfg : ∀ (s s' : St) (b : List Nat), (f s b).2 = (g s' b).2) :
    ∀ (n : Nat) (st st' : St) (bs : List Nat),
      (iterGeoms f n st bs).2 = (iterGeoms g n st' bs).2 := by
  intro n
  induction n with
  | zero => intro st st' bs; rfl
  | succ m ih =>
    intro st st' bs
    calc (iterGeoms f (m + 1) st bs).2
        = (iterGeoms f m (f st bs).1 (f st bs).2).2 := rfl
      _ = (iterGeoms g m (g st' bs).1 (f st bs).2).2 := ih _ _ _
      _ = (iterGeoms g m (g st' bs).1 (g st' bs).2).2 := by rw [hfg st st' bs]
      _ = (iterGeoms g (m + 1) st' bs).2 := rfl

/-- The polygon decoder's cursor advance is independent of the drawing
parameters, the state and the coordinate decoder. -/
theorem processPolygon_snd_congr (fd fd' : List Nat → ℚ) (z : Bool)
    (cfg cfg' : Cfg) (st st' : St) (bs : List Nat) :
    (processPolygon fd z cfg st bs).2 = (processPolygon fd' z cfg' st' bs).2 := by
  simp only [processPolygon, readU32]
  exact iterGeoms_snd_congr _ _
    (fun s s' b => by rw [processLinearRing_snd, processLinearRing_snd]) _ _ _ _

set_option maxHeartbeats 1600000 in
/-- C9: the cursor position returned by the record decoder is a function of
the input bytes alone — runs over the same bytes with different stroke
width, fill flag, cross half-length (indeed, any configuration), different
starting state, and even a different coordinate-value decoder return the
same final cursor. -/
theorem c9_cursor_independent :
    ∀ (fuel : Nat) (fd fd' : List Nat → ℚ) (cfg cfg' : Cfg) (st st' : St)
      (bs : List Nat),
      (processWKBF fd cfg fuel st bs).2 = (processWKBF fd' cfg' fuel st' bs).2 := by
  intro fuel
  induction fuel with
  | zero => intros; rfl
  | succ m ih =>
    intro fd fd' cfg cfg' st st' bs
    unfold processWKBF
    dsimp only [readU32]
    by_cases h1 : fromLE4 (List.drop 1 bs) = wkbPoint
    · rw [if_pos h1, if_pos h1, processPoint_snd, processPoint_snd]
    rw [if_neg h1, if_neg h1]
    by_cases h2 : fromLE4 (List.drop 1 bs) = wkbZ wkbPoint
    · rw [if_pos h2, if_pos h2, processPoint_snd, processPoint_snd]
    rw [if_neg h2, if_neg h2]
    by_cases h3 : fromLE4 (List.drop 1 bs) = wkbLineString
    · rw [if_pos h3, if_pos h3, processLineString_snd, processLineString_snd]
    rw [if_neg h3, if_neg h3]
    by_cases h4 : fromLE4 (List.drop 1 bs) = wkbZ wkbLineString
    · rw [if_pos h4, if_pos h4, processLineString_snd, processLineString_snd]
    rw [if_neg h4, if_neg h4]
    by_cases h5 : fromLE4 (List.drop 1 bs) = wkbPolygon
    · rw [if_pos h5, if_pos h5]; exact processPolygon_snd_congr ..
    rw [if_neg h5, if_neg h5]
    by_cases h6 : fromLE4 (List.drop 1 bs) = wkbZ wkbPolygon
    · rw [if_pos h6, if_pos h6]; exact processPolygon_snd_congr ..
    rw [if_neg h6, if_neg h6]
    by_cases h7 : fromLE4 (List.drop 1 bs) = wkbMultiPoint
    · rw [if_pos h7, if_pos h7]
      simp only [processMultiPoint, readU32]
      exact iterGeoms_snd_congr _ _
        (fun s s' b => by
          simp only [multiStep]
          rw [processPoint_snd, processPoint_snd]) _ _ _ _
    rw [if_neg h7, if_neg h7]
    by_cases h8 : fromLE4 (List.drop 1 bs) = wkbZ wkbMultiPoint
    · rw [if_pos h8, if_pos h8]
      simp only [processMultiPoint, readU32]
      exact iterGeoms_snd_congr _ _
        (fun s s' b => by
          simp only [multiStep]
          rw [processPoint_snd, processPoint_snd]) _ _ _ _
    rw [if_neg h8, if_neg h8]
    by_cases h9 : fromLE4 (List.drop 1 bs) = wkbMultiLineString
    · rw [if_pos h9, if_pos h9]
      simp only [processMultiLineString, readU32]
      exact iterGeoms_snd_congr _ _
        (fun s s' b => by
          simp only [multiStep]
          rw [processLineString_snd, processLineString_snd]) _ _ _ _
    rw [if_neg h9, if_neg h9]
    by_cases h10 : fromLE4 (List.drop 1 bs) = wkbZ wkbMultiLineString
    · rw [if_pos h10, if_pos h10]
      simp only [processMultiLineString, readU32]
      exact iterGeoms_snd_congr _ _
        (fun s s' b => by
          simp only [multiStep]
          rw [processLineString_snd, processLineString_snd]) _ _ _ _
    rw [if_neg h10, if_neg h10]
    by_cases h11 : fromLE4 (List.drop 1 bs) = wkbMultiPolygon
    · rw [if_pos h11, if_pos h11]
      simp only [processMultiPolygon, readU32]
      exact iterGeoms_snd_congr _ _
        (fun s s' b => by
          simp only [multiStep]
          exact processPolygon_snd_congr ..) _ _ _ _
    rw [if_neg h11, if_neg h11]
    by_cases h12 : fromLE4 (List.drop 1 bs) = wkbZ wkbMultiPolygon
    · rw [if_pos h12, if_pos h12]
      simp only [processMultiPolygon, readU32]
      exact iterGeoms_snd_congr _ _
        (fun s s' b => by
          simp only [multiStep]
          exact processPolygon_snd_congr ..) _ _ _ _
    rw [if_neg h12, if_neg h12]
    by_cases h13 : fromLE4 (List.drop 1 bs) = wkbGeometryCollection
        ∨ fromLE4 (List.drop 1 bs) = wkbZ wkbGeometryCollection
    · rw [if_pos h13, if_pos h13]
      exact iterGeoms_snd_congr _ _
        (fun s s' b => ih fd fd' cfg cfg' s s' b) _ _ _ _
    rw [if_neg h13, if_neg h13]
    by_cases h14 : fromLE4 (List.drop 1 bs) = wkbNone
    · rw [if_pos h14, if_pos h14]
    rw [if_neg h14, if_neg h14]

/-- Reading a count written as four little-endian bytes recovers it and
leaves the cursor on the payload. -/
theorem readU32_u32bytes (n : Nat) (rest : List Nat) (h32 : n < 2 ^ 32) :
    readU32 (u32bytes n ++ rest) = (n, rest) := by
  simp only [readU32, fromLE4, u32bytes, List.cons_append, List.nil_append,
    List.getD_cons_zero, List.getD_cons_succ, List.drop_succ_cons,
    List.drop_zero, Prod.mk.injEq, and_true]
  omega

/-- With a positive line width, the ring vertex loop appends exactly the
segments joining the decoded vertices to the burn trace, and hands back the
last decoded vertex. -/
theorem fillTrack_segs (cfg : Cfg) (q : ℚ) (s : St) :
    (fillTrack cfg q s).segs = s.segs := by
  unfold fillTrack
  cases hb : cfg.bFill <;> simp

/-- Lemma: `VectorWriter_burnLine` appends its segment to the burn trace. -/
theorem burnLine_segs (cfg : Cfg) (s : St) (a b c d : ℚ) :
    (burnLine cfg s a b c d).segs = s.segs ++ [((a, b), (c, d))] := rfl

/-- With a positive line width, the ring vertex loop appends exactly the
segments joining the decoded vertices to the burn trace, and hands back the
last decoded vertex. -/
theorem ringLoop_char (fd : List Nat → ℚ) (z : Bool) (cfg : Cfg)
    (hW : 0 < cfg.lineWidth) :
    ∀ (k : Nat) (dx1 dy1 : ℚ) (st : St) (bs : List Nat)
      (acc : List (ℚ × ℚ)),
      (ringLoop fd z cfg k dx1 dy1 st bs acc).1.segs
          = st.segs ++ pathSegs ((dx1, dy1) :: (decodePts fd z k bs).1)
        ∧ (ringLoop fd z cfg k dx1 dy1 st bs acc).2.2.1
            = (decodePts fd z k bs).1.getLastD (dx1, dy1) := by
  intro k
  induction k with
  | zero =>
    intro dx1 dy1 st bs acc
    simp [ringLoop, decodePts, pathSegs]
  | succ m ih =>
    intro dx1 dy1 st bs acc
    simp only [ringLoop, readF64, decodePts, if_pos hW]
    have hih := ih (fd (List.take 8 bs)) (fd (List.take 8 (List.drop 8 bs)))
      (fillTrack cfg (fd (List.take 8 (List.drop 8 bs)))
        (burnLine cfg st dx1 dy1 (fd (List.take 8 bs))
          (fd (List.take 8 (List.drop 8 bs)))))
      (skipZ z (List.drop 8 (List.drop 8 bs)))
      (acc ++ [(fd (List.take 8 bs), fd (List.take 8 (List.drop 8 bs)))])
    rw [hih.1, hih.2, fillTrack_segs, burnLine_segs, List.getLastD_cons]
    refine ⟨?_, rfl⟩
    simp [pathSegs, List.append_assoc]

/-- C8: a LinearRing with `n ≥ 1` vertices decoded with stroke width > 0
strokes exactly the edges joining consecutive decoded vertices followed by
the implicit closing edge from the last decoded vertex back to the first —
whether or not the coordinate bytes repeat the first vertex. -/
theorem c8_ring_close (fd : List Nat → ℚ) (z : Bool) (cfg : Cfg) (st : St)
    (n : Nat) (rest : List Nat) (hW : 0 < cfg.lineWidth) (hn : 0 < n)
    (h32 : n < 2 ^ 32) :
    (processLinearRing fd z cfg st (u32bytes n ++ rest)).1.segs
      = st.segs ++ pathSegs ((decodePts fd z n rest).1)
        ++ [(((decodePts fd z n rest).1).getLastD (0, 0),
             ((decodePts fd z n rest).1).headD (0, 0))] := by
  obtain ⟨m, rfl⟩ : ∃ m, n = m + 1 := ⟨n - 1, by omega⟩
  simp only [processLinearRing, readU32_u32bytes _ _ h32, readF64,
    Nat.add_sub_cancel, decodePts]
  rw [if_neg (by omega : ¬ (m + 1 = 0))]
  have hchar := ringLoop_char fd z cfg hW m (fd (List.take 8 rest))
    (fd (List.take 8 (List.drop 8 rest)))
    (if cfg.bFill ∧ st.slabs = [] then
      { st with dMinY := fd (List.take 8 (List.drop 8 rest))
                dMaxY := fd (List.take 8 (List.drop 8 rest)) }
      else st)
    (skipZ z (List.drop 8 (List.drop 8 rest))) []
  have hst1segs : (if cfg.bFill ∧ st.slabs = [] then
      { st with dMinY := fd (List.take 8 (List.drop 8 rest))
                dMaxY := fd (List.take 8 (List.drop 8 rest)) }
      else st).segs = st.segs := by
    by_cases hb : cfg.bFill ∧ st.slabs = [] <;> simp [hb]
  by_cases hb : cfg.bFill
  · simp only [hb, true_and, if_pos hW, if_true, burnLine_segs,
      List.drop_drop, Nat.reduceAdd] at hchar hst1segs ⊢
    rw [hchar.1, hchar.2, hst1segs]
    simp [List.append_assoc]
    rw [← List.getLastD_eq_getLast?, ← List.getLastD_eq_getLast?,
      List.getLastD_cons]
  · simp only [hb, false_and, if_false, Bool.false_eq_true, if_pos hW,
      burnLine_segs, List.drop_drop, Nat.reduceAdd] at hchar ⊢
    rw [hchar.1, hchar.2]
    simp [List.append_assoc]
    rw [← List.getLastD_eq_getLast?, ← List.getLastD_eq_getLast?,
      List.getLastD_cons]

/-- C8, witness: a triangle ring `(1,1),(8,1),(4,6)` (first vertex not
repeated), stroke width 1. -/
theorem c8_witness :
    (processLinearRing fdTest false cfgStroke stSquare
        (u32bytes 3 ++ triCoords)).1.segs
      = stSquare.segs
        ++ pathSegs ((decodePts fdTest false 3 triCoords).1)
        ++ [(((decodePts fdTest false 3 triCoords).1).getLastD (0, 0),
             ((decodePts fdTest false 3 triCoords).1).headD (0, 0))] :=
  c8_ring_close fdTest false cfgStroke stSquare 3 triCoords
    (by with_unfolding_all decide) (by decide) (by decide)

/-- A multi-geometry member loop consumes the member's 5 header bytes (the
1-byte order marker and 4-byte type tag) with a pure drop — whatever those
bytes are — and hands the member body straight to the member decoder. -/
theorem iterGeoms_multiStep_head (f : St → List Nat → St × List Nat)
    (n : Nat) (hn : 0 < n) (h body : List Nat) (hh : h.length = 5)
    (st : St) :
    iterGeoms (multiStep f) n st (h ++ body)
      = iterGeoms (multiStep f) (n - 1) (f st body).1 (f st body).2 := by
  obtain ⟨m, rfl⟩ : ∃ m, n = m + 1 := ⟨n - 1, by omega⟩
  simp only [iterGeoms, multiStep, List.drop_left' hh, Nat.add_sub_cancel]

/-- C10: each of the three multi-geometry decoders skips every member's
1-byte order marker and 4-byte type tag without inspecting them (two
buffers differing only in those five bytes decode identically), decodes the
member body with the member handler carrying the *parent's* has-Z flag, and
the parent dispatch derives that flag from the parent record's tag (shown
for the has-Z variants). -/
theorem c10_multi_member_headers (fd : List Nat → ℚ) (z : Bool) (cfg : Cfg)
    (st : St) (n : Nat) (hn : 0 < n) (h32 : n < 2 ^ 32)
    (h h' body : List Nat) (hh : h.length = 5) (hh' : h'.length = 5)
    (b : Nat) (rest : List Nat) (fuel : Nat) :
    (processMultiPoint fd z cfg st (u32bytes n ++ (h ++ body))
        = processMultiPoint fd z cfg st (u32bytes n ++ (h' ++ body)))
      ∧ (processMultiLineString fd z cfg st (u32bytes n ++ (h ++ body))
          = processMultiLineString fd z cfg st (u32bytes n ++ (h' ++ body)))
      ∧ (processMultiPolygon fd z cfg st (u32bytes n ++ (h ++ body))
          = processMultiPolygon fd z cfg st (u32bytes n ++ (h' ++ body)))
      ∧ (processMultiPoint fd z cfg st (u32bytes n ++ (h ++ body))
          = iterGeoms (multiStep (processPoint fd z cfg)) (n - 1)
              (processPoint fd z cfg st body).1
              (processPoint fd z cfg st body).2)
      ∧ (processMultiLineString fd z cfg st (u32bytes n ++ (h ++ body))
          = iterGeoms (multiStep (processLineString fd z cfg)) (n - 1)
              (processLineString fd z cfg st body).1
              (processLineString fd z cfg st body).2)
      ∧ (processMultiPolygon fd z cfg st (u32bytes n ++ (h ++ body))
          = iterGeoms (multiStep (processPolygon fd z cfg)) (n - 1)
              (processPolygon fd z cfg st body).1
              (processPolygon fd z cfg st body).2)
      ∧ (processWKBF fd cfg (fuel + 1) st
            (b :: (u32bytes (wkbZ wkbMultiPoint) ++ rest))
          = processMultiPoint fd true cfg st rest)
      ∧ (processWKBF fd cfg (fuel + 1) st
            (b :: (u32bytes (wkbZ wkbMultiLineString) ++ rest))
          = processMultiLineString fd true cfg st rest)
      ∧ (processWKBF fd cfg (fuel + 1) st
            (b :: (u32bytes (wkbZ wkbMultiPolygon) ++ rest))
          = processMultiPolygon fd true cfg st rest) := by
  have hfrom : ∀ (t : Nat) (r : List Nat), t < 2 ^ 32 →
      fromLE4 (u32bytes t ++ r) = t := by
    intro t r ht
    have := readU32_u32bytes t r ht
    simpa [readU32] using congrArg Prod.fst this
  have hstep : ∀ (f : St → List Nat → St × List Nat) (hd : List Nat),
      hd.length = 5 →
      iterGeoms (multiStep f) n st (hd ++ body)
        = iterGeoms (multiStep f) (n - 1) (f st body).1 (f st body).2 :=
    fun f hd hhd => iterGeoms_multiStep_head f n hn hd body hhd st
  have hmp : ∀ hd : List Nat, hd.length = 5 →
      processMultiPoint fd z cfg st (u32bytes n ++ (hd ++ body))
        = iterGeoms (multiStep (processPoint fd z cfg)) (n - 1)
            (processPoint fd z cfg st body).1
            (processPoint fd z cfg st body).2 := by
    intro hd hhd
    simp only [processMultiPoint, readU32_u32bytes n _ h32]
    exact hstep _ hd hhd
  have hml : ∀ hd : List Nat, hd.length = 5 →
      processMultiLineString fd z cfg st (u32bytes n ++ (hd ++ body))
        = iterGeoms (multiStep (processLineString fd z cfg)) (n - 1)
            (processLineString fd z cfg st body).1
            (processLineString fd z cfg st body).2 := by
    intro hd hhd
    simp only [processMultiLineString, readU32_u32bytes n _ h32]
    exact hstep _ hd hhd
  have hmg : ∀ hd : List Nat, hd.length = 5 →
      processMultiPolygon fd z cfg st (u32bytes n ++ (hd ++ body))
        = iterGeoms (multiStep (processPolygon fd z cfg)) (n - 1)
            (processPolygon fd z cfg st body).1
            (processPolygon fd z cfg st body).2 := by
    intro hd hhd
    simp only [processMultiPolygon, readU32_u32bytes n _ h32]
    exact hstep _ hd hhd
  refine ⟨(hmp h hh).trans (hmp h' hh').symm,
    (hml h hh).trans (hml h' hh').symm,
    (hmg h hh).trans (hmg h' hh').symm,
    hmp h hh, hml h hh, hmg h hh, ?_, ?_, ?_⟩
  · simp only [processWKBF, readU32, List.drop_succ_cons, List.drop_zero,
      hfrom (wkbZ wkbMultiPoint) rest (by decide)]
    rw [List.drop_left' (show (u32bytes (wkbZ wkbMultiPoint)).length = 4 from rfl)]
    norm_num [wkbZ, wkbPoint, wkbLineString, wkbPolygon, wkbMultiPoint,
      wkbMultiLineString, wkbMultiPolygon, wkbGeometryCollection, wkbNone]
  · simp only [processWKBF, readU32, List.drop_succ_cons, List.drop_zero,
      hfrom (wkbZ wkbMultiLineString) rest (by decide)]
    rw [List.drop_left' (show (u32bytes (wkbZ wkbMultiLineString)).length = 4 from rfl)]
    norm_num [wkbZ, wkbPoint, wkbLineString, wkbPolygon, wkbMultiPoint,
      wkbMultiLineString, wkbMultiPolygon, wkbGeometryCollection, wkbNone]
  · simp only [processWKBF, readU32, List.drop_succ_cons, List.drop_zero,
      hfrom (wkbZ wkbMultiPolygon) rest (by decide)]
    rw [List.drop_left' (show (u32bytes (wkbZ wkbMultiPolygon)).length = 4 from rfl)]
    norm_num [wkbZ, wkbPoint, wkbLineString, wkbPolygon, wkbMultiPoint,
      wkbMultiLineString, wkbMultiPolygon, wkbGeometryCollection, wkbNone]

/-- C10, witness: a one-member MultiPoint whose member header carries the
2-D point tag decodes identically to one whose member header falsely
carries the 25D point tag — the member's own tag is never consulted. -/
theorem c10_witness :
    processMultiPoint fdTest false cfgStroke stSquare
        (u32bytes 1 ++ (([1] ++ u32bytes wkbPoint)
          ++ (f64bytes 2 ++ f64bytes 3)))
      = processMultiPoint fdTest false cfgStroke stSquare
        (u32bytes 1 ++ (([1] ++ u32bytes (wkbZ wkbPoint))
          ++ (f64bytes 2 ++ f64bytes 3))) :=
  (c10_multi_member_headers fdTest false cfgStroke stSquare 1 (by decide)
    (by decide) ([1] ++ u32bytes wkbPoint) ([1] ++ u32bytes (wkbZ wkbPoint))
    (f64bytes 2 ++ f64bytes 3) (by decide) (by decide) 0 [5, 5] 0).1

/-- A canvas write preserves the canvas size. -/
theorem canvasSet_length (cfg : Cfg) (c : Canvas) (x y : ℤ) :
    (canvasSet cfg c x y).length = c.length := by
  unfold canvasSet
  split <;> simp

/-- Reading back a canvas cell after one bounds-checked write: the written
cell reads 1, any other in-bounds cell is unchanged (for a canvas that
actually has `xsize * ysize` cells). -/
theorem canvasGet_canvasSet (cfg : Cfg) (c : Canvas)
    (hlen : (c.length : ℤ) = cfg.xsize * cfg.ysize) (x y x' y' : ℤ)
    (hx : 0 ≤ x' ∧ x' < cfg.xsize ∧ 0 ≤ y' ∧ y' < cfg.ysize) :
    canvasGet cfg.xsize (canvasSet cfg c x y) x' y'
      = if x = x' ∧ y = y' then 1 else canvasGet cfg.xsize c x' y' := by
  obtain ⟨hx0, hx1, hy0, hy1⟩ := hx
  have hys : (y' + 1) * cfg.xsize ≤ cfg.ysize * cfg.xsize :=
    mul_le_mul_of_nonneg_right (by omega) (by omega)
  have hysplit : (y' + 1) * cfg.xsize = y' * cfg.xsize + cfg.xsize := by ring
  have hysx : cfg.xsize * cfg.ysize = cfg.ysize * cfg.xsize := mul_comm _ _
  have hg0 : 0 ≤ y' * cfg.xsize := mul_nonneg (by omega) (by omega)
  have hidx' : (y' * cfg.xsize + x').toNat < c.length := by omega
  unfold canvasSet canvasGet
  by_cases hb : 0 ≤ x ∧ x < cfg.xsize ∧ 0 ≤ y ∧ y < cfg.ysize
  · rw [if_pos hb]
    obtain ⟨hbx0, hbx1, hby0, hby1⟩ := hb
    by_cases heq : x = x' ∧ y = y'
    · obtain ⟨rfl, rfl⟩ := heq
      simp only [and_self, if_true, List.getD_eq_getElem?_getD,
        List.getElem?_set_self hidx', Option.getD_some]
    · rw [if_neg heq]
      have hbg0 : 0 ≤ y * cfg.xsize := mul_nonneg (by omega) (by omega)
      have hne : (y * cfg.xsize + x).toNat ≠ (y' * cfg.xsize + x').toNat := by
        intro hcontra
        have hxy : y * cfg.xsize + x = y' * cfg.xsize + x' := by omega
        have hxx : x % cfg.xsize = x := Int.emod_eq_of_lt hbx0 hbx1
        have hxx' : x' % cfg.xsize = x' := Int.emod_eq_of_lt hx0 hx1
        have hdx : x / cfg.xsize = 0 :=
          Int.ediv_eq_zero_of_lt hbx0 hbx1
        have hdx' : x' / cfg.xsize = 0 :=
          Int.ediv_eq_zero_of_lt hx0 hx1
        have hmod : (x + y * cfg.xsize) % cfg.xsize
            = (x' + y' * cfg.xsize) % cfg.xsize := by
          rw [show x + y * cfg.xsize = y * cfg.xsize + x by ring,
            show x' + y' * cfg.xsize = y' * cfg.xsize + x' by ring, hxy]
        rw [Int.add_mul_emod_self, Int.add_mul_emod_self,
          hxx, hxx'] at hmod
        have hdiv : (x + y * cfg.xsize) / cfg.xsize
            = (x' + y' * cfg.xsize) / cfg.xsize := by
          rw [show x + y * cfg.xsize = y * cfg.xsize + x by ring,
            show x' + y' * cfg.xsize = y' * cfg.xsize + x' by ring, hxy]
        rw [Int.add_mul_ediv_right _ _ (by omega : cfg.xsize ≠ 0),
          Int.add_mul_ediv_right _ _ (by omega : cfg.xsize ≠ 0),
          hdx, hdx'] at hdiv
        exact heq ⟨hmod, by omega⟩
      simp only [List.getD_eq_getElem?_getD, List.getElem?_set_ne hne]
  · rw [if_neg hb]
    rw [if_neg (by omega : ¬ (x = x' ∧ y = y'))]

/-- Lemma: `VectorWriter_plot` never changes the canvas size. -/
theorem plot_length (cfg : Cfg) (c : Canvas) (x y : ℤ) :
    (plot cfg c x y).length = c.length := by
  have hcol : ∀ (n : Nat) (x0 y0 : ℤ) (c0 : Canvas),
      (plotCol cfg x0 n y0 c0).length = c0.length := by
    intro n
    induction n with
    | zero => intro x0 y0 c0; rfl
    | succ m ih => intro x0 y0 c0; rw [plotCol, ih, canvasSet_length]
  have hbox : ∀ (n : Nat) (tly : ℤ) (h : Nat) (x0 : ℤ) (c0 : Canvas),
      (plotBox cfg tly h n x0 c0).length = c0.length := by
    intro n
    induction n with
    | zero => intro tly h x0 c0; rfl
    | succ m ih => intro tly h x0 c0; rw [plotBox, ih, hcol]
  unfold plot
  split_ifs
  · exact canvasSet_length ..
  · exact hbox ..
  · rfl

/-- With line width 1, the horizontal cross arm burns exactly the cells
`(x, ny)` for `x ∈ [x0, x0+n)` (reading any in-bounds cell). -/
theorem crossRow_get (cfg : Cfg) (hW : cfg.lineWidth = 1) (ny : ℤ) :
    ∀ (n : Nat) (x0 : ℤ) (c : Canvas),
      (c.length : ℤ) = cfg.xsize * cfg.ysize →
      ∀ (x' y' : ℤ),
      (0 ≤ x' ∧ x' < cfg.xsize ∧ 0 ≤ y' ∧ y' < cfg.ysize) →
      canvasGet cfg.xsize (crossRow cfg ny n x0 c) x' y'
        = if y' = ny ∧ x0 ≤ x' ∧ x' < x0 + n then 1
          else canvasGet cfg.xsize c x' y' := by
  intro n
  induction n with
  | zero =>
    intro x0 c hlen x' y' hx
    rw [crossRow, if_neg (by omega)]
  | succ m ih =>
    intro x0 c hlen x' y' hx
    rw [crossRow, ih (x0 + 1) _ (by rw [plot_length]; exact hlen) x' y' hx,
      show plot cfg c x0 ny = canvasSet cfg c x0 ny from by
        simp [plot, hW],
      canvasGet_canvasSet cfg c hlen x0 ny x' y' hx]
    split_ifs <;> first | rfl | omega

/-- With line width 1, the vertical cross arm burns exactly the cells
`(nx, y)` for `y ∈ [y0, y0+n)` (reading any in-bounds cell). -/
theorem crossCol_get (cfg : Cfg) (hW : cfg.lineWidth = 1) (nx : ℤ) :
    ∀ (n : Nat) (y0 : ℤ) (c : Canvas),
      (c.length : ℤ) = cfg.xsize * cfg.ysize →
      ∀ (x' y' : ℤ),
      (0 ≤ x' ∧ x' < cfg.xsize ∧ 0 ≤ y' ∧ y' < cfg.ysize) →
      canvasGet cfg.xsize (crossCol cfg nx n y0 c) x' y'
        = if x' = nx ∧ y0 ≤ y' ∧ y' < y0 + n then 1
          else canvasGet cfg.xsize c x' y' := by
  intro n
  induction n with
  | zero =>
    intro y0 c hlen x' y' hx
    rw [crossCol, if_neg (by omega)]
  | succ m ih =>
    intro y0 c hlen x' y' hx
    rw [crossCol, ih (y0 + 1) _ (by rw [plot_length]; exact hlen) x' y' hx,
      show plot cfg c nx y0 = canvasSet cfg c nx y0 from by
        simp [plot, hW],
      canvasGet_canvasSet cfg c hlen nx y0 x' y' hx]
    split_ifs <;> first | rfl | omega

/-- The horizontal cross arm also preserves the canvas size. -/
theorem crossRow_length (cfg : Cfg) (ny : ℤ) :
    ∀ (n : Nat) (x0 : ℤ) (c : Canvas),
      (crossRow cfg ny n x0 c).length = c.length := by
  intro n
  induction n with
  | zero => intro x0 c; rfl
  | succ m ih => intro x0 c; rw [crossRow, ih, plot_length]

/-- C2, amended: with stroke width 1, the point marker burns: for cross
half-length 1, exactly the single mapped pixel; for half-length H ≥ 2, a
horizontal run of 2H pixels `x ∈ [nx-H, nx+H)` and a vertical run of 2H
pixels `y ∈ [ny-H, ny+H)` through the mapped centre `(nx, ny)` (clipped at
canvas edges); and for half-length ≤ 0 — including the claim's H = 0 —
nothing at all. -/
theorem c2_amended (cfg : Cfg) (hW : cfg.lineWidth = 1) (c : Canvas)
    (hlen : (c.length : ℤ) = cfg.xsize * cfg.ysize) (dx dy : ℚ) (x y : ℤ)
    (hx : 0 ≤ x ∧ x < cfg.xsize ∧ 0 ≤ y ∧ y < cfg.ysize) :
    canvasGet cfg.xsize (burnPoint cfg c dx dy) x y
      = if (cfg.halfCross = 1 ∧ x = (mapPixel cfg dx dy).1
              ∧ y = (mapPixel cfg dx dy).2)
          ∨ (1 < cfg.halfCross ∧
              ((y = (mapPixel cfg dx dy).2
                  ∧ (mapPixel cfg dx dy).1 - cfg.halfCross ≤ x
                  ∧ x < (mapPixel cfg dx dy).1 + cfg.halfCross)
                ∨ (x = (mapPixel cfg dx dy).1
                  ∧ (mapPixel cfg dx dy).2 - cfg.halfCross ≤ y
                  ∧ y < (mapPixel cfg dx dy).2 + cfg.halfCross)))
        then 1 else canvasGet cfg.xsize c x y := by
  simp only [burnPoint]
  by_cases h1 : cfg.halfCross = 1
  · rw [if_pos h1,
      show plot cfg c (mapPixel cfg dx dy).1 (mapPixel cfg dx dy).2
          = canvasSet cfg c (mapPixel cfg dx dy).1 (mapPixel cfg dx dy).2
        from by simp [plot, hW],
      canvasGet_canvasSet cfg c hlen _ _ x y hx]
    split_ifs <;> first | rfl | omega
  · rw [if_neg h1]
    by_cases h2 : 1 < cfg.halfCross
    · rw [if_pos h2,
        crossCol_get cfg hW _ _ _ _
          (by rw [crossRow_length]; exact hlen) x y hx,
        crossRow_get cfg hW _ _ _ _ hlen x y hx]
      split_ifs <;> first | rfl | omega
    · rw [if_neg h2, if_neg (by omega)]

/-- C2, witness for the amended theorem: half-length 2 on a 5×5 canvas,
point `(5/2, 5/2)`; the pixel `(0, 2)` lies on the horizontal run and reads
back 1. -/
theorem c2_amended_witness :
    canvasGet (mkCfg 1 false 2 0 5 5 0 5 5).xsize
        (burnPoint (mkCfg 1 false 2 0 5 5 0 5 5) (List.replicate 25 0)
          (5/2) (5/2)) 0 2
      = if ((mkCfg 1 false 2 0 5 5 0 5 5).halfCross = 1
              ∧ (0 : ℤ) = (mapPixel (mkCfg 1 false 2 0 5 5 0 5 5)
                  (5/2) (5/2)).1
              ∧ (2 : ℤ) = (mapPixel (mkCfg 1 false 2 0 5 5 0 5 5)
                  (5/2) (5/2)).2)
          ∨ (1 < (mkCfg 1 false 2 0 5 5 0 5 5).halfCross ∧
              (((2 : ℤ) = (mapPixel (mkCfg 1 false 2 0 5 5 0 5 5)
                    (5/2) (5/2)).2
                  ∧ (mapPixel (mkCfg 1 false 2 0 5 5 0 5 5)
                      (5/2) (5/2)).1
                      - (mkCfg 1 false 2 0 5 5 0 5 5).halfCross ≤ 0
                  ∧ (0 : ℤ) < (mapPixel (mkCfg 1 false 2 0 5 5 0 5 5)
                      (5/2) (5/2)).1
                      + (mkCfg 1 false 2 0 5 5 0 5 5).halfCross)
                ∨ ((0 : ℤ) = (mapPixel (mkCfg 1 false 2 0 5 5 0 5 5)
                    (5/2) (5/2)).1
                  ∧ (mapPixel (mkCfg 1 false 2 0 5 5 0 5 5)
                      (5/2) (5/2)).2
                      - (mkCfg 1 false 2 0 5 5 0 5 5).halfCross ≤ 2
                  ∧ (2 : ℤ) < (mapPixel (mkCfg 1 false 2 0 5 5 0 5 5)
                      (5/2) (5/2)).2
                      + (mkCfg 1 false 2 0 5 5 0 5 5).halfCross)))
        then 1
        else canvasGet (mkCfg 1 false 2 0 5 5 0 5 5).xsize
          (List.replicate 25 0) 0 2 :=
  c2_amended (mkCfg 1 false 2 0 5 5 0 5 5) (by with_unfolding_all decide)
    (List.replicate 25 0) (by with_unfolding_all decide) (5/2) (5/2) 0 2
    (by with_unfolding_all decide)

set_option maxRecDepth 8000 in
/-- C6, counterexample: when the fill scratch-buffer allocation fails on the
square example, the call still returns an ordinary canvas — all zeros, not
the complete all-burnt result of a successful run — and the only signal is a
`stderr` line; no allocation-failure error reaches the caller, contradicting
the claim that the call fails and the partial canvas is not returned. -/
theorem c6_counterexample :
    (processAllAlloc false fdTest cfgSquare stSquare sqWKB).canvas
        = List.replicate 100 0
      ∧ (processAllAlloc true fdTest cfgSquare stSquare sqWKB).canvas
          = List.replicate 100 1
      ∧ (processAllAlloc false fdTest cfgSquare stSquare sqWKB).msgs
          = ["Allocation for fill failed"] := by with_unfolding_all decide

/-- C6, amended: a fill scratch-buffer allocation failure is silent partial
success: the call returns, as its normal result, exactly the canvas produced
by decoding (the fill pass is skipped), and at most a `stderr` message is
added; no error value exists on this path. -/
theorem c6_amended (fd : List Nat → ℚ) (cfg : Cfg) (st : St)
    (bs : List Nat) :
    (processAllAlloc false fd cfg st bs).canvas
        = (processWKBF fd cfg (bs.length + 1) st bs).1.canvas
      ∧ ((processAllAlloc false fd cfg st bs).msgs
            = (processWKBF fd cfg (bs.length + 1) st bs).1.msgs
          ∨ (processAllAlloc false fd cfg st bs).msgs
              = (processWKBF fd cfg (bs.length + 1) st bs).1.msgs
                  ++ ["Allocation for fill failed"]) := by
  unfold processAllAlloc fillPolyAlloc
  dsimp only
  split
  · split
    · exact ⟨rfl, Or.inl rfl⟩
    · exact ⟨rfl, Or.inr rfl⟩
  · exact ⟨rfl, Or.inl rfl⟩

end VectorRasterizer
